import Mathlib

/-!
# Thin-client data router: channel registry, connection loop, affinity cache

A shallow embedding of `DataRouter` (thin-client/src/impl/data_router.cpp).

* `std::map` is an association list kept in ascending key order
  (`mapFind`, `mapInsert`, `mapAssign`, `mapErase`).
* `std::vector` is a list.
* Exceptions and undefined behaviour are explicit results (`Outcome`).
* The network is an oracle (`Net`) answering each connection attempt and each
  `IsConnected()` query; `rand()` is a state transformer on a seed.
* Loops whose termination depends on machine arithmetic take fuel (`Run`).
-/

namespace Ignite

/-! ## Data model -/

/-- Modelled from the spec: `NodeIdentity.id`, an opaque unique identifier (the
`Guid` class is not among the sources). Node ids are natural numbers; their
order stands for the order `std::map` keeps its `Guid` keys in. -/
abbrev Guid := Nat

/-- Modelled from the spec: `NodeIdentity`, what `DataChannel::GetNode()` reports
once connected: `GetGuid()` and `IsLegacy()`. -/
structure IgniteNode where
  guid : Guid
  legacy : Bool
  deriving DecidableEq, Repr

/-- Modelled from the spec: `AddressRange` (`network::TcpRange`): try ports
`port .. port + range` on `host`. `port` and `range` are `uint16_t` fields. -/
structure TcpRange where
  host : String
  port : Nat
  range : Nat
  deriving DecidableEq, Repr

/-- Modelled from the spec: a resolved network endpoint (`network::EndPoint`). -/
structure EndPoint where
  host : String
  port : Nat
  deriving DecidableEq, Repr

/-- A connected `DataChannel`: the endpoint `Connect(host, port, timeout)` was
called with and the node the handshake reported. Whether it is still connected
is a fact of the transport, asked through `Net.isConnected`. -/
structure DataChannel where
  host : String
  port : Nat
  node : IgniteNode
  deriving DecidableEq, Repr

/-- The `IgniteError` codes thrown by the router, with their messages. -/
inductive IgniteError where
  | illegalArgument (msg : String)
  | generic (msg : String)
  | cache (msg : String)
  deriving DecidableEq, Repr

/-- The ways the router code can leave defined C++ behaviour. -/
inductive Undefined where
  | divisionByZero
  | derefEnd
  | indexPastEnd
  deriving DecidableEq, Repr

/-- Result of a call: a returned value, a thrown `IgniteError`, or undefined
behaviour. -/
inductive Outcome (α : Type) where
  | value (a : α)
  | thrown (e : IgniteError)
  | undefined (u : Undefined)
  deriving DecidableEq, Repr

/-- Modelled from the spec: one element of the affinity response, a node id with
the partitions it owns (`NodePartitions` is not among the sources). -/
structure NodePartitions where
  node : Guid
  parts : List Int
  deriving DecidableEq, Repr

/-- Modelled from the spec: an `AffinityEntry`, the snapshot built from one
response (`cache::CacheAffinityInfo(nodeParts)`; the class is not among the
sources). -/
structure CacheAffinityInfo where
  nodeParts : List NodePartitions
  deriving DecidableEq, Repr

/-- Modelled from the spec: `ResponseStatus::SUCCESS` (response_status.h is not
among the sources). -/
def ResponseStatus.SUCCESS : Int := 0

/-! ## Ordered maps (`std::map`) -/

section Map
variable {K V : Type} [LinearOrder K]

/-- Strictly ascending keys: the representation invariant of `std::map`. -/
def mapOrdered (m : List (K × V)) : Prop :=
  List.Pairwise (fun a b => a < b) (m.map Prod.fst)

/-- The lookup `m.find(k)`: the value stored under `k`, if any. -/
def mapFind : List (K × V) → K → Option V
  | [], _ => none
  | (k1, v1) :: rest, k => if k1 = k then some v1 else mapFind rest k

/-- The call `m.insert(make_pair(k, v))`: inserts at the ordered position when
`k` is absent; leaves the map alone when present. The flag is `res.second`. -/
def mapInsert : List (K × V) → K → V → List (K × V) × Bool
  | [], k, v => ([(k, v)], true)
  | (k1, v1) :: rest, k, v =>
    if k < k1 then ((k, v) :: (k1, v1) :: rest, true)
    else if k1 = k then ((k1, v1) :: rest, false)
    else ((k1, v1) :: (mapInsert rest k v).1, (mapInsert rest k v).2)

/-- Writing `v` through a reference to the value stored under `k`. -/
def mapAssign : List (K × V) → K → V → List (K × V)
  | [], _, _ => []
  | (k1, v1) :: rest, k, v =>
    if k1 = k then (k1, v) :: rest else (k1, v1) :: mapAssign rest k v

/-- The call `m.erase(k)`. -/
def mapErase (m : List (K × V)) (k : K) : List (K × V) :=
  m.filter (fun e => decide (e.1 ≠ k))

/-- The keys of a map, in iteration order. -/
def mapKeys (m : List (K × V)) : List K := m.map Prod.fst

end Map

/-! ## Router state -/

/-- The fields of `DataRouter` the operations below read and write. -/
structure DataRouter where
  ranges : List TcpRange
  channels : List (Guid × DataChannel)
  legacyChannels : List DataChannel
  cacheAffinityMapping : List (Int × Option CacheAffinityInfo)
  deriving DecidableEq, Repr

/-! ## Channel selection -/

/-- The body of `DataRouter::GetRandomChannelLocked`. `rand` is libc `rand()` as a
transformer of its hidden state: it yields the (non-negative) draw and the next
state. -/
def GetRandomChannelLocked (rand : Nat → Nat × Nat) (s : DataRouter) (seed : Nat) :
    Outcome DataChannel × DataRouter × Nat :=
  let r := (rand seed).1
  let seed1 := (rand seed).2
  let total := s.channels.length + s.legacyChannels.length
  if total = 0 then (.undefined .divisionByZero, s, seed1)
  else
    let idx := r % total
    if idx > s.channels.length then
      let legacyIdx := idx - s.channels.length
      match s.legacyChannels[legacyIdx]? with
      | some c => (.value c, s, seed1)
      | none => (.undefined .indexPastEnd, s, seed1)
    else
      match s.channels[idx]? with
      | some e => (.value e.2, s, seed1)
      | none => (.undefined .derefEnd, s, seed1)

/-- The body of `DataRouter::GetRandomChannel`: takes the lock and delegates. -/
def GetRandomChannel (rand : Nat → Nat × Nat) (s : DataRouter) (seed : Nat) :
    Outcome DataChannel × DataRouter × Nat :=
  GetRandomChannelLocked rand s seed

/-- The body of `DataRouter::GetBestChannel`. -/
def GetBestChannel (rand : Nat → Nat × Nat) (s : DataRouter) (hint : Guid) (seed : Nat) :
    Outcome DataChannel × DataRouter × Nat :=
  match mapFind s.channels hint with
  | some c => (.value c, s, seed)
  | none => GetRandomChannelLocked rand s seed

/-! ## Connect -/

/-- Answer of one `channel.Get()->Connect(host, port, timeout)` call: it throws an
`IgniteError`, returns `false`, or returns `true`, after which `GetNode()` is the
node reached. -/
inductive Attempt where
  | threw
  | refused
  | accepted (node : IgniteNode)
  deriving DecidableEq, Repr

/-- The network as seen by one `Connect()` call. Both answers may depend on the
number of connection attempts made so far in the call, so an endpoint or a
channel may answer differently at different times. -/
structure Net where
  connect : Nat → String → Nat → Attempt
  isConnected : Nat → DataChannel → Bool

/-- A loop run on fuel: it left the loop (`finished`), or the fuel ran out while
it was still iterating (`running`); both carry the state reached. -/
inductive Run (α : Type) where
  | finished (a : α)
  | running (a : α)
  deriving DecidableEq, Repr

/-- The variables of a `Connect()` call in flight: the registry map, the local
`newLegacyChannels`, and the log of the endpoints `Connect` was called on. -/
structure ConnectState where
  channels : List (Guid × DataChannel)
  newLegacyChannels : List DataChannel
  probes : List EndPoint
  deriving DecidableEq, Repr

/-- The block `if (connected) ...` of `DataRouter::Connect` up to its `break`:
registration of a freshly connected channel. `alive` answers `IsConnected()`. -/
def registerChannel (alive : DataChannel → Bool) (st : ConnectState)
    (channel : DataChannel) : ConnectState :=
  if channel.node.legacy then
    { st with newLegacyChannels := st.newLegacyChannels ++ [channel] }
  else
    let res := mapInsert st.channels channel.node.guid channel
    let inserted := res.2
    match inserted, mapFind res.1 channel.node.guid with
    | false, some oldChannel =>
      if alive oldChannel then { st with channels := res.1 }
      else { st with channels := mapAssign res.1 channel.node.guid channel }
    | _, _ => { st with channels := res.1 }

/-- The inner loop of `DataRouter::Connect`,
`for (uint16_t port = range.port; port <= range.port + range.range; ++port)`.
The bound is an `int` sum (no wrap); the counter is 16 bits wide and wraps. -/
def portLoop (net : Net) (range : TcpRange) : Nat → Nat → ConnectState → Run ConnectState
  | 0, _, st => .running st
  | fuel + 1, port, st =>
    if port ≤ range.port + range.range then
      let st1 : ConnectState :=
        { st with probes := st.probes ++ [⟨range.host, port⟩] }
      match net.connect st.probes.length range.host port with
      | .accepted node =>
        .finished (registerChannel (net.isConnected st.probes.length) st1
          ⟨range.host, port, node⟩)
      | _ => portLoop net range fuel ((port + 1) % 65536) st1
    else .finished st

/-- The outer loop of `DataRouter::Connect` over `ranges`; every inner loop gets
`fuel` iterations. -/
def rangeLoop (net : Net) (fuel : Nat) : List TcpRange → ConnectState → Run ConnectState
  | [], st => .finished st
  | range :: rest, st =>
    match portLoop net range fuel range.port st with
    | .finished st1 => rangeLoop net fuel rest st1
    | .running st1 => .running st1

/-- What a `Connect()` call did: how it ended (`none`: it was still inside a port
loop when the fuel ran out), the router it left, and the endpoints it probed,
in order. -/
structure Connected where
  result : Option (Outcome Unit)
  router : DataRouter
  probes : List EndPoint
  deriving DecidableEq, Repr

/-- The body of `DataRouter::Connect`. -/
def Connect (net : Net) (fuel : Nat) (s : DataRouter) : Connected :=
  if s.ranges = [] then
    ⟨some (.thrown (.illegalArgument "No valid address to connect.")), s, []⟩
  else
    match rangeLoop net fuel s.ranges ⟨s.channels, [], []⟩ with
    | .running st => ⟨none, { s with channels := st.channels }, st.probes⟩
    | .finished st =>
      let s1 : DataRouter :=
        { s with channels := st.channels, legacyChannels := st.newLegacyChannels }
      if s1.channels = [] then
        ⟨some (.thrown (.generic "Failed to establish connection with any host.")),
          s1, st.probes⟩
      else ⟨some (.value ()), s1, st.probes⟩

/-- The body of `DataRouter::Close`. -/
def Close (s : DataRouter) : Outcome Unit × DataRouter :=
  (.value (), { s with channels := [], legacyChannels := [] })

/-! ## Affinity cache -/

/-- What `SyncMessageNoMetaUpdate(req, rsp)` does with the partitions request: it
throws, or fills the response with a status, an error text and `nodeParts`. -/
inductive Exchange where
  | threw (e : IgniteError)
  | reply (status : Int) (error : String) (nodeParts : List NodePartitions)
  deriving DecidableEq, Repr

/-- The expression `cacheAffinityMapping[cacheId]`: `operator[]` first inserts a
null pointer under an absent key. -/
def mapSubscript (m : List (Int × Option CacheAffinityInfo)) (cacheId : Int) :
    List (Int × Option CacheAffinityInfo) :=
  (mapInsert m cacheId none).1

/-- The body of `DataRouter::RefreshAffinityMapping`; `sync` answers the request. -/
def RefreshAffinityMapping (sync : Int → Bool → Exchange) (s : DataRouter)
    (cacheId : Int) (binary : Bool) : Outcome Unit × DataRouter :=
  match sync cacheId binary with
  | .threw e => (.thrown e, s)
  | .reply status error nodeParts =>
    if status ≠ ResponseStatus.SUCCESS then (.thrown (.cache error), s)
    else
      let newMapping : Option CacheAffinityInfo := some ⟨nodeParts⟩
      let m1 := mapSubscript s.cacheAffinityMapping cacheId
      (.value (), { s with cacheAffinityMapping := mapAssign m1 cacheId newMapping })

/-- The body of `DataRouter::GetAffinityMapping`; a null pointer is `none`. -/
def GetAffinityMapping (s : DataRouter) (cacheId : Int) :
    Option CacheAffinityInfo × DataRouter :=
  let m1 := mapSubscript s.cacheAffinityMapping cacheId
  ((mapFind m1 cacheId).getD none, { s with cacheAffinityMapping := m1 })

/-- The body of `DataRouter::ReleaseAffinityMapping`. -/
def ReleaseAffinityMapping (s : DataRouter) (cacheId : Int) : DataRouter :=
  { s with cacheAffinityMapping := mapErase s.cacheAffinityMapping cacheId }

/-- One call on the affinity cache; a refresh carries the answer it got. -/
inductive AffinityCall where
  | refresh (cacheId : Int) (binary : Bool) (answer : Exchange)
  | get (cacheId : Int)
  | release (cacheId : Int)
  deriving DecidableEq, Repr

/-- The router after one affinity call. -/
def runCall (s : DataRouter) : AffinityCall → DataRouter
  | .refresh cacheId binary answer =>
    (RefreshAffinityMapping (fun _ _ => answer) s cacheId binary).2
  | .get cacheId => (GetAffinityMapping s cacheId).2
  | .release cacheId => ReleaseAffinityMapping s cacheId

/-- The router after a sequence of affinity calls, oldest first. -/
def runCalls (s : DataRouter) (calls : List AffinityCall) : DataRouter :=
  calls.foldl runCall s

/-- Following the spec's words, over the calls listed most recent first: the
mapping built from the response of the most recent successful refresh of `c`
not since followed by a release of `c`; absent if there is none. -/
def latestMappingFrom (c : Int) : List AffinityCall → Option CacheAffinityInfo
  | [] => none
  | .refresh cacheId _ (.reply status _ nodeParts) :: earlier =>
    if cacheId = c ∧ status = ResponseStatus.SUCCESS then some ⟨nodeParts⟩
    else latestMappingFrom c earlier
  | .release cacheId :: earlier =>
    if cacheId = c then none else latestMappingFrom c earlier
  | _ :: earlier => latestMappingFrom c earlier

/-- Following the spec's words: what `GetAffinityMapping(c)` is to return after
`calls` (oldest first). -/
def latestMapping (c : Int) (calls : List AffinityCall) : Option CacheAffinityInfo :=
  latestMappingFrom c calls.reverse

/-- A router as its constructor leaves it: configured ranges, nothing else. -/
def freshRouter (ranges : List TcpRange) : DataRouter := ⟨ranges, [], [], []⟩

/-- The cache id an affinity call is about. -/
def AffinityCall.cacheId : AffinityCall → Int
  | .refresh cacheId _ _ => cacheId
  | .get cacheId => cacheId
  | .release cacheId => cacheId

/-! ## User-provided endpoints -/

/-- The loop of `DataRouter::IsProvidedByUser` over `ranges`, returning at the
first range that holds the endpoint. The operands of `it->port + it->range` are
promoted to `int` before the addition, so the bound is the exact sum. -/
def providedLoop : List TcpRange → EndPoint → Bool
  | [], _ => false
  | it :: rest, endPoint =>
    if it.host = endPoint.host ∧ endPoint.port ≥ it.port
        ∧ endPoint.port ≤ it.port + it.range then true
    else providedLoop rest endPoint

/-- The body of `DataRouter::IsProvidedByUser`, with the router it leaves. -/
def IsProvidedByUser (s : DataRouter) (endPoint : EndPoint) : Bool × DataRouter :=
  (providedLoop s.ranges endPoint, s)

/-! ## Concrete networks and routers used as test inputs -/

/-- A network on which no attempt connects: it throws where `throws` says so and
returns `false` elsewhere. -/
def failingNet (throws : Nat → String → Nat → Bool) (alive : Nat → DataChannel → Bool) : Net :=
  ⟨fun n host port => if throws n host port then .threw else .refused, alive⟩

/-- A network on which every endpoint accepts and reports the same node. -/
def constNet (node : IgniteNode) : Net :=
  ⟨fun _ _ _ => .accepted node, fun _ _ => true⟩

/-- A listener on port 11111 only, reaching node 7. -/
def listenerNet : Net :=
  ⟨fun _ _ port => if port = 11111 then .accepted ⟨7, false⟩ else .threw, fun _ _ => true⟩

/-- Hosts "a" and "c" reach node 1, every other host reaches node 2; channels
stay connected. -/
def twoNodeNet : Net :=
  ⟨fun _ host _ =>
    if host = "a" ∨ host = "c" then .accepted ⟨1, false⟩ else .accepted ⟨2, false⟩,
   fun _ _ => true⟩

/-- A registry with one identity-addressable channel and one legacy channel. -/
def mixedRouter : DataRouter :=
  ⟨[], [(10, ⟨"a", 11110, ⟨10, false⟩⟩)], [⟨"l", 11110, ⟨30, true⟩⟩], []⟩

/-! ## Facts about ordered maps -/

section MapFacts
variable {K V : Type} [LinearOrder K]

theorem mapOrdered_tail {e : K × V} {m : List (K × V)} (h : mapOrdered (e :: m)) :
    mapOrdered m := by
  unfold mapOrdered at h ⊢
  simp only [List.map_cons, List.pairwise_cons] at h
  exact h.2

theorem mapOrdered_head_lt {e : K × V} {m : List (K × V)} (h : mapOrdered (e :: m))
    {k : K} {v : V} (hm : (k, v) ∈ m) : e.1 < k := by
  unfold mapOrdered at h
  simp only [List.map_cons, List.pairwise_cons] at h
  exact h.1 k (List.mem_map.mpr ⟨(k, v), hm, rfl⟩)

/-- In an ordered map the lookup finds the entry stored under a key. -/
theorem mapFind_of_mem {m : List (K × V)} (hord : mapOrdered m) {k : K} {v : V}
    (hm : (k, v) ∈ m) : mapFind m k = some v := by
  induction m with
  | nil => cases hm
  | cons e rest ih =>
    obtain ⟨k1, v1⟩ := e
    rcases List.mem_cons.mp hm with heq | hrest
    · cases heq
      simp [mapFind]
    · have hlt : k1 < k := mapOrdered_head_lt hord hrest
      have hne : ¬ k1 = k := ne_of_lt hlt
      simp only [mapFind, hne, if_false]
      exact ih (mapOrdered_tail hord) hrest

/-- What the lookup finds is an entry of the map. -/
theorem mem_of_mapFind {m : List (K × V)} {k : K} {v : V}
    (h : mapFind m k = some v) : (k, v) ∈ m := by
  induction m with
  | nil => simp [mapFind] at h
  | cons e rest ih =>
    obtain ⟨k1, v1⟩ := e
    by_cases hk : k1 = k
    · simp only [mapFind, hk, if_true, Option.some.injEq] at h
      subst hk; subst h
      exact List.mem_cons_self _ _
    · simp only [mapFind, hk, if_false] at h
      exact List.mem_cons_of_mem _ (ih h)

end MapFacts

/-! ## Channel selection -/

/-- C1: for every registry (keys of `primary` strictly ascending, as `std::map`
keeps them), every hint under which `primary` stores a channel `c`, and every
random source and seed, `GetBestChannel(hint)` returns exactly `c`, leaves the
registry as it was and does not advance the random source. -/
theorem getBestChannel_exact (rand : Nat → Nat × Nat) (s : DataRouter) (hint : Guid)
    (seed : Nat) (c : DataChannel) (hord : mapOrdered s.channels)
    (hmem : (hint, c) ∈ s.channels) :
    GetBestChannel rand s hint seed = (.value c, s, seed) := by
  unfold GetBestChannel
  rw [mapFind_of_mem hord hmem]

/-- C1, instance: a registry holding node 10 in `primary` and one legacy channel,
hint 10. -/
theorem getBestChannel_exact_witness :
    GetBestChannel (fun n => (n, n + 1)) mixedRouter 10 5
      = (.value ⟨"a", 11110, ⟨10, false⟩⟩, mixedRouter, 5) :=
  getBestChannel_exact (fun n => (n, n + 1)) mixedRouter 10 5 ⟨"a", 11110, ⟨10, false⟩⟩
    (by simp [mapOrdered, mixedRouter]) (by simp [mixedRouter])

/-- The locked selection at the boundary index: whenever the drawn index equals
`|primary|` the code takes the `primary` branch and dereferences `end()`. -/
theorem getRandomChannelLocked_at_boundary (rand : Nat → Nat × Nat) (s : DataRouter)
    (seed : Nat) (hleg : s.legacyChannels ≠ [])
    (hidx : (rand seed).1 % (s.channels.length + s.legacyChannels.length)
      = s.channels.length) :
    GetRandomChannelLocked rand s seed = (.undefined .derefEnd, s, (rand seed).2) := by
  have hpos : 0 < s.legacyChannels.length := List.length_pos.mpr hleg
  have htot : ¬ (s.channels.length + s.legacyChannels.length = 0) := by omega
  have hget : s.channels[s.channels.length]? = none := by simp
  simp only [GetRandomChannelLocked, htot, if_false, hidx, gt_iff_lt, lt_irrefl, hget]

/-- C2 (evaluation at the failing input): with `primary` holding one channel,
`legacy` holding one channel and the draw 1, the index is 1 = `|primary|`; the test
`idx > channels.size()` is false, the iterator is advanced to `end()` and
dereferenced: no channel of the union is returned, where the claim promises
`legacy[0]`. With the draw 0 the first `primary` entry is returned. -/
theorem getRandomChannelLocked_boundary_undefined :
    GetRandomChannelLocked (fun n => (1, n + 1)) mixedRouter 0
        = (.undefined .derefEnd, mixedRouter, 1)
      ∧ GetRandomChannel (fun n => (1, n + 1)) mixedRouter 0
        = (.undefined .derefEnd, mixedRouter, 1)
      ∧ GetBestChannel (fun n => (1, n + 1)) mixedRouter 99 0
        = (.undefined .derefEnd, mixedRouter, 1)
      ∧ GetRandomChannelLocked (fun n => (0, n + 1)) mixedRouter 0
        = (.value ⟨"a", 11110, ⟨10, false⟩⟩, mixedRouter, 1) := by
  decide

/-- C3 (evaluation at the failing input): with `primary` and `legacy` both empty,
for every random source, seed and hint, `GetRandomChannel()` and
`GetBestChannel(hint)` compute `r % 0`: the result is undefined behaviour
(integer division by zero), not a thrown error. -/
theorem selection_on_empty_registry (rand : Nat → Nat × Nat) (ranges : List TcpRange)
    (affinity : List (Int × Option CacheAffinityInfo)) (hint : Guid) (seed : Nat) :
    GetRandomChannel rand ⟨ranges, [], [], affinity⟩ seed
        = (.undefined .divisionByZero, ⟨ranges, [], [], affinity⟩, (rand seed).2)
      ∧ GetBestChannel rand ⟨ranges, [], [], affinity⟩ hint seed
        = (.undefined .divisionByZero, ⟨ranges, [], [], affinity⟩, (rand seed).2) := by
  constructor
  · simp [GetRandomChannel, GetRandomChannelLocked]
  · simp [GetBestChannel, mapFind, GetRandomChannelLocked]

/-! ## Connect and Close -/

/-- C7: with an empty range list, for every network, fuel and registry,
`Connect()` throws the IllegalArgument error "No valid address to connect.",
probes no endpoint, and leaves the router (so `primary` and `legacy`) exactly as
it was. -/
theorem connect_empty_ranges (net : Net) (fuel : Nat) (channels : List (Guid × DataChannel))
    (legacy : List DataChannel) (affinity : List (Int × Option CacheAffinityInfo)) :
    Connect net fuel ⟨[], channels, legacy, affinity⟩
      = ⟨some (.thrown (.illegalArgument "No valid address to connect.")),
          ⟨[], channels, legacy, affinity⟩, []⟩ := by
  simp [Connect]

/-- C10: for every router state `Close()` returns normally and leaves `primary`
and `legacy` empty (nothing else changes); a second `Close()` again returns
normally and yields the same router as the first. -/
theorem close_idempotent (s : DataRouter) :
    Close s = (.value (), ⟨s.ranges, [], [], s.cacheAffinityMapping⟩)
      ∧ (Close s).2.channels = [] ∧ (Close s).2.legacyChannels = []
      ∧ Close (Close s).2 = Close s := by
  simp [Close]

section MapFacts2
variable {K V : Type} [LinearOrder K]

theorem mapOrdered_cons_iff {e : K × V} {m : List (K × V)} :
    mapOrdered (e :: m) ↔ (∀ k ∈ mapKeys m, e.1 < k) ∧ mapOrdered m := by
  unfold mapOrdered mapKeys
  simp only [List.map_cons, List.pairwise_cons]

/-- A key below the first key of an ordered map is not in the map. -/
theorem mapFind_none_of_lt {e : K × V} {m : List (K × V)} (hord : mapOrdered (e :: m))
    {k : K} (hlt : k < e.1) : mapFind (e :: m) k = none := by
  cases hf : mapFind (e :: m) k with
  | none => rfl
  | some v =>
    exfalso
    have hmem := mem_of_mapFind hf
    rcases List.mem_cons.mp hmem with heq | hrest
    · rw [← heq] at hlt
      exact lt_irrefl _ hlt
    · exact lt_asymm hlt (mapOrdered_head_lt hord hrest)

theorem mapFind_isSome_iff {m : List (K × V)} {k : K} :
    (∃ v, mapFind m k = some v) ↔ k ∈ mapKeys m := by
  induction m with
  | nil => simp [mapFind, mapKeys]
  | cons e rest ih =>
    obtain ⟨k1, v1⟩ := e
    by_cases hk : k1 = k
    · subst hk
      simp [mapFind, mapKeys]
    · have hk2 : ¬ k = k1 := fun h => hk h.symm
      simp only [mapFind, hk, if_false, mapKeys, List.map_cons, List.mem_cons, hk2, false_or]
      exact ih

/-- The lookup after `insert`: the inserted key is bound to the value already
there, or to the new one; other keys are untouched. -/
theorem mapFind_mapInsert {m : List (K × V)} (hord : mapOrdered m) (k : K) (v : V) (q : K) :
    mapFind (mapInsert m k v).1 q
      = if q = k then some ((mapFind m k).getD v) else mapFind m q := by
  induction m with
  | nil =>
    by_cases hq : q = k
    · subst hq; simp [mapInsert, mapFind]
    · have hq2 : ¬ k = q := fun h => hq h.symm
      simp [mapInsert, mapFind, hq, hq2]
  | cons e rest ih =>
    obtain ⟨k1, v1⟩ := e
    by_cases hlt : k < k1
    · have hnone : mapFind ((k1, v1) :: rest) k = none := mapFind_none_of_lt hord hlt
      by_cases hq : q = k
      · subst hq
        rw [hnone]
        simp [mapInsert, hlt, mapFind]
      · have hq2 : ¬ k = q := fun h => hq h.symm
        simp [mapInsert, hlt, mapFind, hq, hq2]
    · by_cases hk : k1 = k
      · subst hk
        by_cases hq : q = k1
        · subst hq
          simp [mapInsert, mapFind]
        · simp [mapInsert, mapFind, hq]
      · have ih2 := ih (mapOrdered_tail hord)
        by_cases hq : q = k
        · subst hq
          simp only [mapInsert, hlt, hk, if_false, mapFind, if_true]
          rw [ih2]; simp
        · by_cases hq1 : k1 = q
          · subst hq1
            simp [mapInsert, hlt, hk, mapFind, hq]
          · simp only [mapInsert, hlt, hk, if_false, mapFind, hq1, hq]
            rw [ih2]; simp [hq]

/-- The keys after `insert`: the old keys and the inserted one. -/
theorem mem_mapKeys_mapInsert {m : List (K × V)} (k : K) (v : V) (q : K) :
    q ∈ mapKeys (mapInsert m k v).1 ↔ q = k ∨ q ∈ mapKeys m := by
  induction m with
  | nil => simp [mapInsert, mapKeys]
  | cons e rest ih =>
    obtain ⟨k1, v1⟩ := e
    by_cases hlt : k < k1
    · simp [mapInsert, hlt, mapKeys]
    · by_cases hk : k1 = k
      · subst hk
        simp [mapInsert, mapKeys]
      · simp only [mapKeys] at ih
        simp only [mapInsert, hlt, hk, if_false, mapKeys, List.map_cons, List.mem_cons, ih]
        tauto

/-- The call `insert` keeps the keys strictly ascending. -/
theorem mapOrdered_mapInsert {m : List (K × V)} (hord : mapOrdered m) (k : K) (v : V) :
    mapOrdered (mapInsert m k v).1 := by
  induction m with
  | nil => simp [mapInsert, mapOrdered]
  | cons e rest ih =>
    obtain ⟨k1, v1⟩ := e
    by_cases hlt : k < k1
    · simp only [mapInsert, hlt, if_true]
      rw [mapOrdered_cons_iff]
      refine ⟨?_, hord⟩
      intro q hq
      simp only [mapKeys, List.map_cons, List.mem_cons] at hq
      rcases hq with hq | hq
      · rw [hq]; exact hlt
      · exact lt_trans hlt ((mapOrdered_cons_iff.mp hord).1 q hq)
    · by_cases hk : k1 = k
      · subst hk
        simp only [mapInsert, hlt, if_false, if_true]
        exact hord
      · simp only [mapInsert, hlt, hk, if_false]
        rw [mapOrdered_cons_iff]
        refine ⟨?_, ih (mapOrdered_tail hord)⟩
        intro q hq
        rcases (mem_mapKeys_mapInsert k v q).mp hq with hq | hq
        · rw [hq]
          exact lt_of_le_of_ne (not_lt.mp hlt) hk
        · exact (mapOrdered_cons_iff.mp hord).1 q hq

/-- The call `insert` on a present key changes nothing and reports `false`. -/
theorem mapInsert_present {m : List (K × V)} (hord : mapOrdered m) {k : K} {old : V}
    (h : mapFind m k = some old) (v : V) : mapInsert m k v = (m, false) := by
  induction m with
  | nil => simp [mapFind] at h
  | cons e rest ih =>
    obtain ⟨k1, v1⟩ := e
    by_cases hlt : k < k1
    · rw [mapFind_none_of_lt hord hlt] at h
      cases h
    · by_cases hk : k1 = k
      · simp [mapInsert, hlt, hk]
      · simp only [mapFind, hk, if_false] at h
        simp [mapInsert, hlt, hk, ih (mapOrdered_tail hord) h]

/-- The call `insert` on an absent key reports `true` and adds one entry. -/
theorem mapInsert_absent {m : List (K × V)} {k : K} (h : mapFind m k = none) (v : V) :
    (mapInsert m k v).2 = true ∧ (mapInsert m k v).1.length = m.length + 1 := by
  induction m with
  | nil => simp [mapInsert]
  | cons e rest ih =>
    obtain ⟨k1, v1⟩ := e
    by_cases hlt : k < k1
    · simp [mapInsert, hlt]
    · by_cases hk : k1 = k
      · simp [mapFind, hk] at h
      · simp only [mapFind, hk, if_false] at h
        simp [mapInsert, hlt, hk, ih h]

theorem mapKeys_mapAssign (m : List (K × V)) (k : K) (v : V) :
    mapKeys (mapAssign m k v) = mapKeys m := by
  induction m with
  | nil => rfl
  | cons e rest ih =>
    obtain ⟨k1, v1⟩ := e
    by_cases hk : k1 = k
    · simp [mapAssign, hk, mapKeys]
    · simp only [mapKeys] at ih
      simp [mapAssign, hk, mapKeys, ih]

theorem mapOrdered_mapAssign {m : List (K × V)} (hord : mapOrdered m) (k : K) (v : V) :
    mapOrdered (mapAssign m k v) := by
  have h := mapKeys_mapAssign m k v
  unfold mapOrdered
  unfold mapKeys at h
  rw [h]; exact hord

/-- The lookup after writing through a reference to the entry under `k`. -/
theorem mapFind_mapAssign (m : List (K × V)) (k : K) (v : V) (q : K) :
    mapFind (mapAssign m k v) q
      = if q = k ∧ k ∈ mapKeys m then some v else mapFind m q := by
  induction m with
  | nil => simp [mapAssign, mapFind, mapKeys]
  | cons e rest ih =>
    obtain ⟨k1, v1⟩ := e
    by_cases hk : k1 = k
    · subst hk
      by_cases hq : q = k1
      · subst hq; simp [mapAssign, mapFind, mapKeys]
      · have hq2 : ¬ k1 = q := fun h => hq h.symm
        simp [mapAssign, mapFind, mapKeys, hq, hq2]
    · have hk2 : ¬ k = k1 := fun h => hk h.symm
      by_cases hq1 : k1 = q
      · subst hq1
        simp [mapAssign, mapFind, hk, hk2]
      · simp only [mapAssign, hk, if_false, mapFind, hq1, ih, mapKeys, List.map_cons,
          List.mem_cons, hk2, false_or]

theorem length_mapAssign (m : List (K × V)) (k : K) (v : V) :
    (mapAssign m k v).length = m.length := by
  have h := congrArg List.length (mapKeys_mapAssign m k v)
  simpa [mapKeys] using h

end MapFacts2

/-! ## Registration of a connected channel -/

/-- Registration when the reported node id is already a key. -/
theorem registerChannel_present (alive : DataChannel → Bool) (st : ConnectState)
    (channel old : DataChannel) (hord : mapOrdered st.channels)
    (hleg : channel.node.legacy = false)
    (hold : mapFind st.channels channel.node.guid = some old) :
    registerChannel alive st channel
      = if alive old then st
        else { st with channels := mapAssign st.channels channel.node.guid channel } := by
  unfold registerChannel
  simp only [hleg, Bool.false_eq_true, if_false, mapInsert_present hord hold channel, hold]

/-- Registration when the reported node id is not yet a key. -/
theorem registerChannel_absent (alive : DataChannel → Bool) (st : ConnectState)
    (channel : DataChannel) (hleg : channel.node.legacy = false)
    (hnone : mapFind st.channels channel.node.guid = none) :
    registerChannel alive st channel
      = { st with channels := (mapInsert st.channels channel.node.guid channel).1 } := by
  unfold registerChannel
  simp only [hleg, Bool.false_eq_true, if_false, (mapInsert_absent hnone channel).1]

/-- Registration keeps the keys of `primary` strictly ascending. -/
theorem registerChannel_ordered (alive : DataChannel → Bool) (st : ConnectState)
    (channel : DataChannel) (hord : mapOrdered st.channels) :
    mapOrdered (registerChannel alive st channel).channels := by
  by_cases hleg : channel.node.legacy = true
  · simp [registerChannel, hleg, hord]
  · have hleg2 : channel.node.legacy = false := by simpa using hleg
    cases hf : mapFind st.channels channel.node.guid with
    | none =>
      rw [registerChannel_absent alive st channel hleg2 hf]
      exact mapOrdered_mapInsert hord _ _
    | some old =>
      rw [registerChannel_present alive st channel old hord hleg2 hf]
      by_cases ha : alive old = true
      · simp [ha, hord]
      · simp only [ha, if_false]
        exact mapOrdered_mapAssign hord _ _

/-- Registration never empties `primary`, and a non-legacy channel leaves it
non-empty. -/
theorem registerChannel_nonempty (alive : DataChannel → Bool) (st : ConnectState)
    (channel : DataChannel) (hord : mapOrdered st.channels)
    (h : st.channels ≠ [] ∨ channel.node.legacy = false) :
    (registerChannel alive st channel).channels ≠ [] := by
  by_cases hleg : channel.node.legacy = true
  · have hne : st.channels ≠ [] := by
      rcases h with h | h
      · exact h
      · rw [hleg] at h; cases h
    simp [registerChannel, hleg, hne]
  · have hleg2 : channel.node.legacy = false := by simpa using hleg
    cases hf : mapFind st.channels channel.node.guid with
    | none =>
      rw [registerChannel_absent alive st channel hleg2 hf]
      have hlen := (mapInsert_absent hf channel).2
      intro hnil
      simp only at hnil
      rw [hnil] at hlen
      simp at hlen
    | some old =>
      have hne : st.channels ≠ [] := by
        intro hnil
        rw [hnil] at hf
        simp [mapFind] at hf
      rw [registerChannel_present alive st channel old hord hleg2 hf]
      by_cases ha : alive old = true
      · simp [ha, hne]
      · have ha2 : alive old = false := by simpa using ha
        simp only [ha2, Bool.false_eq_true, if_false]
        intro hnil
        have hlen := length_mapAssign st.channels channel.node.guid channel
        rw [hnil] at hlen
        exact hne (List.length_eq_zero.mp hlen.symm)

/-- C4: registration of a newly connected non-legacy channel into `primary`
(keys strictly ascending). If its node id is already a key with channel `old`:
the key list and the size do not change, and the entry under the id is `old`
when `old` is still connected and the new channel otherwise. If the id is not
yet a key: the new channel is stored under it, the size grows by one and the
keys are the old keys plus the id. Entries under other ids are never touched and
the keys stay strictly ascending. The scenario: `Connect()` over three ranges,
two reaching distinct nodes and the third reaching one of them again (still
connected), leaves `|primary| = 2`. -/
theorem registerChannel_dedup (alive : DataChannel → Bool) (st : ConnectState)
    (channel : DataChannel) (hord : mapOrdered st.channels)
    (hleg : channel.node.legacy = false) :
    (∀ old, mapFind st.channels channel.node.guid = some old →
        mapKeys (registerChannel alive st channel).channels = mapKeys st.channels
        ∧ (registerChannel alive st channel).channels.length = st.channels.length
        ∧ mapFind (registerChannel alive st channel).channels channel.node.guid
            = some (if alive old then old else channel))
    ∧ (mapFind st.channels channel.node.guid = none →
        mapFind (registerChannel alive st channel).channels channel.node.guid = some channel
        ∧ (registerChannel alive st channel).channels.length = st.channels.length + 1
        ∧ ∀ k, k ∈ mapKeys (registerChannel alive st channel).channels
            ↔ k = channel.node.guid ∨ k ∈ mapKeys st.channels)
    ∧ (∀ k, k ≠ channel.node.guid →
        mapFind (registerChannel alive st channel).channels k = mapFind st.channels k)
    ∧ mapOrdered (registerChannel alive st channel).channels
    ∧ (Connect twoNodeNet 5
        (freshRouter [⟨"b", 100, 2⟩, ⟨"a", 100, 2⟩, ⟨"c", 100, 0⟩])).router.channels
        = [(1, ⟨"a", 100, ⟨1, false⟩⟩), (2, ⟨"b", 100, ⟨2, false⟩⟩)] := by
  refine ⟨?_, ?_, ?_, registerChannel_ordered alive st channel hord, by decide⟩
  · intro old hold
    rw [registerChannel_present alive st channel old hord hleg hold]
    have hkey : channel.node.guid ∈ mapKeys st.channels :=
      mapFind_isSome_iff.mp ⟨old, hold⟩
    by_cases ha : alive old = true
    · simp [ha, hold]
    · simp only [ha, if_false, Bool.false_eq_true]
      refine ⟨mapKeys_mapAssign _ _ _, length_mapAssign _ _ _, ?_⟩
      rw [mapFind_mapAssign]
      simp [hkey]
  · intro hnone
    rw [registerChannel_absent alive st channel hleg hnone]
    refine ⟨?_, (mapInsert_absent hnone channel).2, ?_⟩
    · simp only
      rw [mapFind_mapInsert hord, hnone]
      simp
    · intro k
      exact mem_mapKeys_mapInsert _ _ _
  · intro k hk
    cases hf : mapFind st.channels channel.node.guid with
    | none =>
      rw [registerChannel_absent alive st channel hleg hf]
      simp only
      rw [mapFind_mapInsert hord]
      simp [hk]
    | some old =>
      rw [registerChannel_present alive st channel old hord hleg hf]
      by_cases ha : alive old = true
      · simp [ha]
      · simp only [ha, if_false, Bool.false_eq_true]
        rw [mapFind_mapAssign]
        simp [hk]

/-- C4, instance: `primary` holds nodes 1 and 2 and a further channel to node 1
arrives; with the old channel connected the size stays 2, with it disconnected
the new channel is stored under key 1. -/
theorem registerChannel_dedup_witness :
    (registerChannel (fun _ => true)
        ⟨[(1, ⟨"a", 100, ⟨1, false⟩⟩), (2, ⟨"b", 100, ⟨2, false⟩⟩)], [], []⟩
        ⟨"c", 100, ⟨1, false⟩⟩).channels.length = 2
      ∧ mapFind (registerChannel (fun _ => false)
        ⟨[(1, ⟨"a", 100, ⟨1, false⟩⟩), (2, ⟨"b", 100, ⟨2, false⟩⟩)], [], []⟩
        ⟨"c", 100, ⟨1, false⟩⟩).channels 1 = some ⟨"c", 100, ⟨1, false⟩⟩ :=
  ⟨((registerChannel_dedup (fun _ => true)
      ⟨[(1, ⟨"a", 100, ⟨1, false⟩⟩), (2, ⟨"b", 100, ⟨2, false⟩⟩)], [], []⟩
      ⟨"c", 100, ⟨1, false⟩⟩ (by simp [mapOrdered]) rfl).1
      ⟨"a", 100, ⟨1, false⟩⟩ (by decide)).2.1,
   ((registerChannel_dedup (fun _ => false)
      ⟨[(1, ⟨"a", 100, ⟨1, false⟩⟩), (2, ⟨"b", 100, ⟨2, false⟩⟩)], [], []⟩
      ⟨"c", 100, ⟨1, false⟩⟩ (by simp [mapOrdered]) rfl).1
      ⟨"a", 100, ⟨1, false⟩⟩ (by decide)).2.2⟩

/-! ## Affinity cache -/

section MapFacts3
variable {K V : Type} [LinearOrder K]

theorem mapOrdered_mapErase {m : List (K × V)} (hord : mapOrdered m) (k : K) :
    mapOrdered (mapErase m k) := by
  unfold mapOrdered mapErase at *
  exact List.Pairwise.sublist ((List.filter_sublist m).map Prod.fst) hord

/-- The lookup after `erase`. -/
theorem mapFind_mapErase (m : List (K × V)) (k q : K) :
    mapFind (mapErase m k) q = if q = k then none else mapFind m q := by
  induction m with
  | nil => simp [mapErase, mapFind]
  | cons e rest ih =>
    obtain ⟨k1, v1⟩ := e
    unfold mapErase at ih ⊢
    by_cases hk : k1 = k
    · subst hk
      by_cases hq : q = k1
      · subst hq
        simp only [List.filter_cons, ne_eq, not_true_eq_false, decide_False,
          Bool.false_eq_true, if_false, if_true]
        simpa using ih
      · have hq2 : ¬ k1 = q := fun h => hq h.symm
        simp only [List.filter_cons, ne_eq, not_true_eq_false, decide_False,
          Bool.false_eq_true, if_false, ih, hq, mapFind, hq2]
    · by_cases hq1 : k1 = q
      · subst hq1
        simp [List.filter_cons, hk, mapFind]
      · simp only [List.filter_cons, ne_eq, hk, not_false_eq_true, decide_True, if_true,
          mapFind, hq1, if_false, ih]

end MapFacts3

/-- What `GetAffinityMapping` reads from a map: the pointer under the id, null
when there is none. -/
theorem getAffinityMapping_fst (s : DataRouter) (c : Int)
    (hord : mapOrdered s.cacheAffinityMapping) :
    (GetAffinityMapping s c).1 = (mapFind s.cacheAffinityMapping c).getD none := by
  unfold GetAffinityMapping mapSubscript
  simp only
  rw [mapFind_mapInsert hord]
  simp

/-- One affinity call on a map with ascending keys keeps them ascending, and
moves the pointer read under `c` as the spec-side scan says. -/
theorem runCall_lookup (s : DataRouter) (call : AffinityCall) (c : Int)
    (earlier : List AffinityCall) (hord : mapOrdered s.cacheAffinityMapping)
    (h : (mapFind s.cacheAffinityMapping c).getD none = latestMappingFrom c earlier) :
    mapOrdered (runCall s call).cacheAffinityMapping
      ∧ (mapFind (runCall s call).cacheAffinityMapping c).getD none
        = latestMappingFrom c (call :: earlier) := by
  cases call with
  | get d =>
    refine ⟨mapOrdered_mapInsert hord _ _, ?_⟩
    simp only [runCall, GetAffinityMapping, mapSubscript, latestMappingFrom]
    rw [mapFind_mapInsert hord, ← h]
    by_cases hc : c = d
    · subst hc; simp
    · simp [hc]
  | release d =>
    refine ⟨mapOrdered_mapErase hord _, ?_⟩
    simp only [runCall, ReleaseAffinityMapping, latestMappingFrom]
    rw [mapFind_mapErase, ← h]
    by_cases hc : c = d
    · subst hc; simp
    · have hc2 : ¬ d = c := fun h => hc h.symm
      simp [hc, hc2]
  | refresh d binary answer =>
    cases answer with
    | threw e =>
      refine ⟨hord, ?_⟩
      simp [runCall, RefreshAffinityMapping, latestMappingFrom, h]
    | reply status error nodeParts =>
      by_cases hs : status = ResponseStatus.SUCCESS
      · have hord1 : mapOrdered (mapInsert s.cacheAffinityMapping d none).1 :=
          mapOrdered_mapInsert hord _ _
        have hkey : d ∈ mapKeys (mapInsert s.cacheAffinityMapping d none).1 :=
          (mem_mapKeys_mapInsert _ _ _).mpr (Or.inl rfl)
        refine ⟨?_, ?_⟩
        · simp only [runCall, RefreshAffinityMapping, hs, ne_eq, not_true_eq_false,
            if_false, mapSubscript]
          exact mapOrdered_mapAssign hord1 _ _
        · simp only [runCall, RefreshAffinityMapping, hs, ne_eq, not_true_eq_false,
            if_false, mapSubscript, latestMappingFrom, and_true]
          rw [mapFind_mapAssign, mapFind_mapInsert hord, ← h]
          by_cases hc : c = d
          · subst hc; simp [hkey]
          · have hc2 : ¬ d = c := fun h => hc h.symm
            simp [hc, hc2]
      · refine ⟨?_, ?_⟩
        · simp [runCall, RefreshAffinityMapping, hs, hord]
        · simp [runCall, RefreshAffinityMapping, hs, latestMappingFrom, h]

/-- After any sequence of calls on a fresh router the affinity map has ascending
keys and the pointer under `c` is what the spec-side scan says. -/
theorem runCalls_lookup (ranges : List TcpRange) (calls : List AffinityCall) (c : Int) :
    mapOrdered (runCalls (freshRouter ranges) calls).cacheAffinityMapping
      ∧ (mapFind (runCalls (freshRouter ranges) calls).cacheAffinityMapping c).getD none
        = latestMapping c calls := by
  induction calls using List.reverseRecOn with
  | nil => simp [runCalls, freshRouter, mapOrdered, mapFind, latestMapping, latestMappingFrom]
  | append_singleton calls call ih =>
    have hstep := runCall_lookup (runCalls (freshRouter ranges) calls) call c calls.reverse
      ih.1 ih.2
    simpa [runCalls, latestMapping] using hstep

/-- C9: after every sequence of Refresh / Get / Release calls on a fresh router and
for every cache id `c`, `GetAffinityMapping(c)` returns exactly the mapping built
from the response of the most recent successful refresh of `c` not since followed
by a release of `c`, and a null pointer when there is none (`latestMapping`
follows the spec's words). A refresh of `c` answered with a non-success status (it
throws the CacheError), and any call on another cache id, leave what
`GetAffinityMapping(c)` returns unchanged. -/
theorem getAffinityMapping_latest (ranges : List TcpRange) (calls : List AffinityCall)
    (c : Int) :
    (GetAffinityMapping (runCalls (freshRouter ranges) calls) c).1 = latestMapping c calls
      ∧ (∀ binary status error nodeParts, status ≠ ResponseStatus.SUCCESS →
          (RefreshAffinityMapping (fun _ _ => .reply status error nodeParts)
              (runCalls (freshRouter ranges) calls) c binary).1 = .thrown (.cache error)
          ∧ (GetAffinityMapping (runCalls (freshRouter ranges)
              (calls ++ [.refresh c binary (.reply status error nodeParts)])) c).1
            = (GetAffinityMapping (runCalls (freshRouter ranges) calls) c).1)
      ∧ (∀ call : AffinityCall, call.cacheId ≠ c →
          (GetAffinityMapping (runCalls (freshRouter ranges) (calls ++ [call])) c).1
            = (GetAffinityMapping (runCalls (freshRouter ranges) calls) c).1) := by
  have hget : ∀ cs : List AffinityCall,
      (GetAffinityMapping (runCalls (freshRouter ranges) cs) c).1 = latestMapping c cs := by
    intro cs
    rw [getAffinityMapping_fst _ _ (runCalls_lookup ranges cs c).1]
    exact (runCalls_lookup ranges cs c).2
  refine ⟨hget calls, ?_, ?_⟩
  · intro binary status error nodeParts hs
    refine ⟨by simp [RefreshAffinityMapping, hs], ?_⟩
    rw [hget, hget]
    simp [latestMapping, latestMappingFrom, hs]
  · intro call hcall
    rw [hget, hget]
    cases call with
    | get d => simp [latestMapping, latestMappingFrom]
    | release d =>
      have hd : ¬ d = c := by simpa [AffinityCall.cacheId] using hcall
      simp [latestMapping, latestMappingFrom, hd]
    | refresh d binary answer =>
      have hd : ¬ d = c := by simpa [AffinityCall.cacheId] using hcall
      cases answer with
      | threw e => simp [latestMapping, latestMappingFrom]
      | reply status error nodeParts => simp [latestMapping, latestMappingFrom, hd]

/-- C9, instance: after a successful refresh of cache 3, a failed refresh of cache 3
and a release of cache 4 each leave the mapping returned for cache 3 unchanged. -/
theorem getAffinityMapping_latest_witness :
    (GetAffinityMapping (runCalls (freshRouter [])
        ([.refresh 3 true (.reply 0 "" [⟨1, [0, 1]⟩]), .get 3]
          ++ [.refresh 3 true (.reply 1 "no such cache" [])])) 3).1
        = (GetAffinityMapping (runCalls (freshRouter [])
            [.refresh 3 true (.reply 0 "" [⟨1, [0, 1]⟩]), .get 3]) 3).1
      ∧ (GetAffinityMapping (runCalls (freshRouter [])
        ([.refresh 3 true (.reply 0 "" [⟨1, [0, 1]⟩]), .get 3] ++ [.release 4])) 3).1
        = (GetAffinityMapping (runCalls (freshRouter [])
            [.refresh 3 true (.reply 0 "" [⟨1, [0, 1]⟩]), .get 3]) 3).1 :=
  ⟨((getAffinityMapping_latest []
      [.refresh 3 true (.reply 0 "" [⟨1, [0, 1]⟩]), .get 3] 3).2.1
      true 1 "no such cache" [] (by decide)).2,
   (getAffinityMapping_latest []
      [.refresh 3 true (.reply 0 "" [⟨1, [0, 1]⟩]), .get 3] 3).2.2
      (.release 4) (by decide)⟩

/-! ## The connection loops -/

/-- Away from the end of the 16-bit port space the port loop leaves within
`range.port + range.range + 2 - port` iterations, and it carries along every
property of the state that probing and registering keep. -/
theorem portLoop_finishes (net : Net) (range : TcpRange) (P : ConnectState → Prop)
    (hprobe : ∀ (st : ConnectState) (e : EndPoint), P st →
      P { st with probes := st.probes ++ [e] })
    (hreg : ∀ (st : ConnectState) (port : Nat) (node : IgniteNode),
      net.connect st.probes.length range.host port = .accepted node → P st →
      P (registerChannel (net.isConnected st.probes.length)
        { st with probes := st.probes ++ [⟨range.host, port⟩] } ⟨range.host, port, node⟩))
    (hnowrap : range.port + range.range < 65535) :
    ∀ (fuel port : Nat) (st : ConnectState),
      range.port + range.range + 1 - port < fuel → P st →
      ∃ st1, portLoop net range fuel port st = .finished st1 ∧ P st1 := by
  intro fuel
  induction fuel with
  | zero => intro port st hfuel; omega
  | succ fuel ih =>
    intro port st hfuel hP
    by_cases hle : port ≤ range.port + range.range
    · cases hc : net.connect st.probes.length range.host port with
      | accepted node =>
        refine ⟨_, ?_, hreg st port node hc hP⟩
        simp only [portLoop, hle, if_true, hc]
      | threw =>
        have hmod : (port + 1) % 65536 = port + 1 := Nat.mod_eq_of_lt (by omega)
        obtain ⟨st1, h1, h2⟩ := ih (port + 1) _ (by omega) (hprobe st ⟨range.host, port⟩ hP)
        refine ⟨st1, ?_, h2⟩
        simp only [portLoop, hle, if_true, hc, hmod]
        exact h1
      | refused =>
        have hmod : (port + 1) % 65536 = port + 1 := Nat.mod_eq_of_lt (by omega)
        obtain ⟨st1, h1, h2⟩ := ih (port + 1) _ (by omega) (hprobe st ⟨range.host, port⟩ hP)
        refine ⟨st1, ?_, h2⟩
        simp only [portLoop, hle, if_true, hc, hmod]
        exact h1
    · exact ⟨st, by simp only [portLoop, hle, if_false], hP⟩

/-- The range loop over ranges that stay away from the end of the port space
finishes, given fuel for the longest range, and carries along every property of
the state that probing and registering keep. -/
theorem rangeLoop_finishes (net : Net) (fuel : Nat) (P : ConnectState → Prop)
    (hprobe : ∀ (st : ConnectState) (e : EndPoint), P st →
      P { st with probes := st.probes ++ [e] })
    (hreg : ∀ (st : ConnectState) (host : String) (port : Nat) (node : IgniteNode),
      net.connect st.probes.length host port = .accepted node → P st →
      P (registerChannel (net.isConnected st.probes.length)
        { st with probes := st.probes ++ [⟨host, port⟩] } ⟨host, port, node⟩)) :
    ∀ (ranges : List TcpRange) (st : ConnectState),
      (∀ q ∈ ranges, q.port + q.range < 65535) → (∀ q ∈ ranges, q.range + 1 < fuel) →
      P st → ∃ st1, rangeLoop net fuel ranges st = .finished st1 ∧ P st1 := by
  intro ranges
  induction ranges with
  | nil => intro st _ _ hP; exact ⟨st, rfl, hP⟩
  | cons range rest ih =>
    intro st hnowrap hfuel hP
    obtain ⟨st1, h1, hP1⟩ := portLoop_finishes net range P hprobe
      (fun st port node => hreg st range.host port node)
      (hnowrap range (List.mem_cons_self _ _)) fuel range.port st
      (by have := hfuel range (List.mem_cons_self _ _); omega) hP
    obtain ⟨st2, h2, hP2⟩ := ih st1
      (fun q hq => hnowrap q (List.mem_cons_of_mem _ hq))
      (fun q hq => hfuel q (List.mem_cons_of_mem _ hq)) hP1
    refine ⟨st2, ?_, hP2⟩
    simp only [rangeLoop, h1]
    exact h2

/-- A range with a port `p` that always accepts, on which no port up to `p`
ever reports a legacy node: its port loop ends with `primary` non-empty. -/
theorem portLoop_reaches (net : Net) (range : TcpRange) (p : Nat)
    (hp : p ≤ range.port + range.range) (hnowrap : range.port + range.range < 65535)
    (hacc : ∀ n, ∃ node, net.connect n range.host p = .accepted node)
    (hnonleg : ∀ n q node, range.port ≤ q → q ≤ p →
      net.connect n range.host q = .accepted node → node.legacy = false) :
    ∀ (fuel port : Nat) (st : ConnectState),
      range.port ≤ port → port ≤ p → p - port < fuel → mapOrdered st.channels →
      ∃ st1, portLoop net range fuel port st = .finished st1
        ∧ mapOrdered st1.channels ∧ st1.channels ≠ [] := by
  intro fuel
  induction fuel with
  | zero => intro port st _ _ hfuel; omega
  | succ fuel ih =>
    intro port st hlo hhi hfuel hord
    have hle : port ≤ range.port + range.range := le_trans hhi hp
    have hne : ∀ a, a = net.connect st.probes.length range.host port →
        (¬ ∃ node, a = .accepted node) → port < p := by
      intro a ha hno
      rcases Nat.lt_or_ge port p with h | h
      · exact h
      · exfalso
        have hpp : port = p := le_antisymm hhi h
        obtain ⟨node, hnode⟩ := hacc st.probes.length
        exact hno ⟨node, by rw [ha, hpp, hnode]⟩
    cases hc : net.connect st.probes.length range.host port with
    | accepted node =>
      have hl : node.legacy = false := hnonleg _ port node hlo hhi hc
      refine ⟨registerChannel (net.isConnected st.probes.length)
        { st with probes := st.probes ++ [⟨range.host, port⟩] } ⟨range.host, port, node⟩,
        ?_, ?_, ?_⟩
      · simp only [portLoop, hle, if_true, hc]
      · exact registerChannel_ordered _ _ _ hord
      · exact registerChannel_nonempty _ _ _ hord (Or.inr hl)
    | threw =>
      have hlt : port < p := hne _ hc.symm (by simp)
      have hmod : (port + 1) % 65536 = port + 1 := Nat.mod_eq_of_lt (by omega)
      obtain ⟨st1, h1, h2⟩ := ih (port + 1)
        { st with probes := st.probes ++ [⟨range.host, port⟩] }
        (by omega) (by omega) (by omega) hord
      refine ⟨st1, ?_, h2⟩
      simp only [portLoop, hle, if_true, hc, hmod]
      exact h1
    | refused =>
      have hlt : port < p := hne _ hc.symm (by simp)
      have hmod : (port + 1) % 65536 = port + 1 := Nat.mod_eq_of_lt (by omega)
      obtain ⟨st1, h1, h2⟩ := ih (port + 1)
        { st with probes := st.probes ++ [⟨range.host, port⟩] }
        (by omega) (by omega) (by omega) hord
      refine ⟨st1, ?_, h2⟩
      simp only [portLoop, hle, if_true, hc, hmod]
      exact h1

/-- The range loop over a list holding a range as in `portLoop_reaches` ends with
`primary` non-empty and its keys strictly ascending. -/
theorem rangeLoop_reaches (net : Net) (fuel : Nat) (r : TcpRange) (p : Nat)
    (hp1 : r.port ≤ p) (hp2 : p ≤ r.port + r.range)
    (hacc : ∀ n, ∃ node, net.connect n r.host p = .accepted node)
    (hnonleg : ∀ n q node, r.port ≤ q → q ≤ p →
      net.connect n r.host q = .accepted node → node.legacy = false) :
    ∀ (ranges : List TcpRange) (st : ConnectState), r ∈ ranges →
      (∀ q ∈ ranges, q.port + q.range < 65535) → (∀ q ∈ ranges, q.range + 1 < fuel) →
      mapOrdered st.channels →
      ∃ st1, rangeLoop net fuel ranges st = .finished st1
        ∧ mapOrdered st1.channels ∧ st1.channels ≠ [] := by
  intro ranges
  induction ranges with
  | nil => intro st hr; cases hr
  | cons range rest ih =>
    intro st hr hnowrap hfuel hord
    have hnw := hnowrap range (List.mem_cons_self _ _)
    have hfu := hfuel range (List.mem_cons_self _ _)
    have hnowrap2 : ∀ q ∈ rest, q.port + q.range < 65535 :=
      fun q hq => hnowrap q (List.mem_cons_of_mem _ hq)
    have hfuel2 : ∀ q ∈ rest, q.range + 1 < fuel :=
      fun q hq => hfuel q (List.mem_cons_of_mem _ hq)
    rcases List.mem_cons.mp hr with heq | hrest
    · subst heq
      obtain ⟨st1, h1, ho1, hn1⟩ := portLoop_reaches net r p hp2 hnw hacc hnonleg
        fuel r.port st (le_refl _) hp1 (by omega) hord
      obtain ⟨st2, h2, hP2⟩ := rangeLoop_finishes net fuel
        (fun st => mapOrdered st.channels ∧ st.channels ≠ [])
        (fun st e hP => hP)
        (fun st host port node _ hP =>
          ⟨registerChannel_ordered _ _ _ hP.1,
            registerChannel_nonempty _ _ _ hP.1 (Or.inl hP.2)⟩)
        rest st1 hnowrap2 hfuel2 ⟨ho1, hn1⟩
      refine ⟨st2, ?_, hP2⟩
      simp only [rangeLoop, h1]
      exact h2
    · obtain ⟨st1, h1, ho1⟩ := portLoop_finishes net range
        (fun st => mapOrdered st.channels)
        (fun st e hP => hP)
        (fun st port node _ hP => registerChannel_ordered _ _ _ hP)
        hnw fuel range.port st (by omega) hord
      obtain ⟨st2, h2, hP2⟩ := ih st1 hrest hnowrap2 hfuel2 ho1
      refine ⟨st2, ?_, hP2⟩
      simp only [rangeLoop, h1]
      exact h2

/-- Strictly ascending keys are pairwise distinct: at most one entry per key. -/
theorem mapKeys_nodup {K V : Type} [LinearOrder K] {m : List (K × V)}
    (hord : mapOrdered m) : (mapKeys m).Nodup := by
  unfold mapOrdered at hord
  unfold mapKeys List.Nodup
  exact List.Pairwise.imp (fun h => ne_of_lt h) hord

/-- A range reaching port 65535 on which no attempt connects: the 16-bit counter
wraps to 0, the test `port <= range.port + range.range` stays true, and the port
loop is still iterating whatever the fuel. -/
theorem portLoop_never_leaves (net : Net) (range : TcpRange)
    (hfail : ∀ n host port node, net.connect n host port ≠ .accepted node)
    (hwrap : 65535 ≤ range.port + range.range) :
    ∀ (fuel port : Nat) (st : ConnectState), port < 65536 →
      ∃ st1, portLoop net range fuel port st = .running st1 := by
  intro fuel
  induction fuel with
  | zero => intro port st _; exact ⟨st, rfl⟩
  | succ fuel ih =>
    intro port st hport
    have hle : port ≤ range.port + range.range := by omega
    have hlt : (port + 1) % 65536 < 65536 := Nat.mod_lt _ (by decide)
    cases hc : net.connect st.probes.length range.host port with
    | accepted node => exact absurd hc (hfail _ _ _ _)
    | threw =>
      obtain ⟨st1, h1⟩ := ih ((port + 1) % 65536)
        { st with probes := st.probes ++ [⟨range.host, port⟩] } hlt
      exact ⟨st1, by simp only [portLoop, hle, if_true, hc]; exact h1⟩
    | refused =>
      obtain ⟨st1, h1⟩ := ih ((port + 1) % 65536)
        { st with probes := st.probes ++ [⟨range.host, port⟩] } hlt
      exact ⟨st1, by simp only [portLoop, hle, if_true, hc]; exact h1⟩

/-- With a range as in `portLoop_never_leaves` in the list, the range loop never
finishes. -/
theorem rangeLoop_never_leaves (net : Net) (fuel : Nat) (r : TcpRange)
    (hfail : ∀ n host port node, net.connect n host port ≠ .accepted node)
    (hfit : r.port < 65536) (hwrap : 65535 ≤ r.port + r.range) :
    ∀ (ranges : List TcpRange) (st : ConnectState), r ∈ ranges →
      ∃ st1, rangeLoop net fuel ranges st = .running st1 := by
  intro ranges
  induction ranges with
  | nil => intro st hr; cases hr
  | cons range rest ih =>
    intro st hr
    cases hp : portLoop net range fuel range.port st with
    | running st1 => exact ⟨st1, by simp only [rangeLoop, hp]⟩
    | finished st1 =>
      rcases List.mem_cons.mp hr with heq | hrest
      · subst heq
        obtain ⟨st2, h2⟩ := portLoop_never_leaves net r hfail hwrap fuel r.port st hfit
        rw [h2] at hp
        cases hp
      · obtain ⟨st2, h2⟩ := ih st1 hrest
        exact ⟨st2, by simp only [rangeLoop, hp]; exact h2⟩

/-- C5 (counterexample): the only configured endpoint accepts the connection
but reports a legacy node; `Connect()` then throws the Generic error and leaves
`primary` empty (the channel went to `legacy`). -/
theorem connect_legacy_only_fails :
    (constNet ⟨1, true⟩).connect 0 "h" 100 = .accepted ⟨1, true⟩
      ∧ Connect (constNet ⟨1, true⟩) 2 (freshRouter [⟨"h", 100, 0⟩])
        = ⟨some (.thrown (.generic "Failed to establish connection with any host.")),
            ⟨[⟨"h", 100, 0⟩], [], [⟨"h", 100, ⟨1, true⟩⟩], []⟩, [⟨"h", 100⟩]⟩ := by
  decide

/-- C5 (amended): for every router (keys of `primary` strictly ascending) whose
ranges all end below port 65535 (`port + range < 65535`), every fuel exceeding
`range + 1` for each range, and every network: if some configured range has a
port `p` that accepts whenever tried, and no connection accepted on a port of
that range up to `p` reports a legacy node, then `Connect()` returns without
error and leaves `primary` non-empty with pairwise distinct (strictly ascending)
keys. -/
theorem connect_reachable (net : Net) (fuel : Nat) (s : DataRouter) (r : TcpRange) (p : Nat)
    (hord : mapOrdered s.channels)
    (hnowrap : ∀ q ∈ s.ranges, q.port + q.range < 65535)
    (hfuel : ∀ q ∈ s.ranges, q.range + 1 < fuel)
    (hr : r ∈ s.ranges) (hp1 : r.port ≤ p) (hp2 : p ≤ r.port + r.range)
    (hacc : ∀ n, ∃ node, net.connect n r.host p = .accepted node)
    (hnonleg : ∀ n q node, r.port ≤ q → q ≤ p →
      net.connect n r.host q = .accepted node → node.legacy = false) :
    (Connect net fuel s).result = some (.value ())
      ∧ (Connect net fuel s).router.channels ≠ []
      ∧ mapOrdered (Connect net fuel s).router.channels
      ∧ (mapKeys (Connect net fuel s).router.channels).Nodup := by
  have hne : ¬ s.ranges = [] := List.ne_nil_of_mem hr
  obtain ⟨st1, h1, ho1, hn1⟩ := rangeLoop_reaches net fuel r p hp1 hp2 hacc hnonleg
    s.ranges ⟨s.channels, [], []⟩ hr hnowrap hfuel hord
  have hrun : Connect net fuel s
      = ⟨some (.value ()),
          { s with channels := st1.channels, legacyChannels := st1.newLegacyChannels },
          st1.probes⟩ := by
    simp only [Connect, hne, if_false, h1, hn1]
  rw [hrun]
  exact ⟨rfl, hn1, ho1, mapKeys_nodup ho1⟩

/-- C5, instance: the range 10.0.0.1:11110..11112 with a listener on 11111 only. -/
theorem connect_reachable_witness :
    (Connect listenerNet 5 (freshRouter [⟨"10.0.0.1", 11110, 2⟩])).result = some (.value ())
      ∧ (Connect listenerNet 5 (freshRouter [⟨"10.0.0.1", 11110, 2⟩])).router.channels ≠ []
      ∧ mapOrdered (Connect listenerNet 5
          (freshRouter [⟨"10.0.0.1", 11110, 2⟩])).router.channels
      ∧ (mapKeys (Connect listenerNet 5
          (freshRouter [⟨"10.0.0.1", 11110, 2⟩])).router.channels).Nodup :=
  connect_reachable listenerNet 5 (freshRouter [⟨"10.0.0.1", 11110, 2⟩])
    ⟨"10.0.0.1", 11110, 2⟩ 11111
    (by simp [freshRouter, mapOrdered])
    (by simp [freshRouter])
    (by simp [freshRouter])
    (by simp [freshRouter])
    (by decide) (by decide)
    (fun _ => ⟨⟨7, false⟩, by simp [listenerNet]⟩)
    (by
      intro n q node _ _ h
      simp only [listenerNet] at h
      split at h
      · cases h; rfl
      · cases h)

/-- Unreachable hosts away from the end of the port space: when no attempt ever
connects, every range ends below port 65535 and `primary` starts empty,
`Connect()` throws the Generic error and leaves `primary` and `legacy` empty. -/
theorem connect_unreachable_below_port_limit (net : Net) (fuel : Nat) (s : DataRouter)
    (hfail : ∀ n host port node, net.connect n host port ≠ .accepted node)
    (hne : s.ranges ≠ []) (hempty : s.channels = [])
    (hnowrap : ∀ q ∈ s.ranges, q.port + q.range < 65535)
    (hfuel : ∀ q ∈ s.ranges, q.range + 1 < fuel) :
    (Connect net fuel s).result
        = some (.thrown (.generic "Failed to establish connection with any host."))
      ∧ (Connect net fuel s).router.channels = []
      ∧ (Connect net fuel s).router.legacyChannels = [] := by
  obtain ⟨st1, h1, hc1, hl1⟩ := rangeLoop_finishes net fuel
    (fun st => st.channels = [] ∧ st.newLegacyChannels = [])
    (fun st e hP => hP)
    (fun st host port node hacc _ => absurd hacc (hfail _ _ _ _))
    s.ranges ⟨s.channels, [], []⟩ hnowrap hfuel ⟨hempty, rfl⟩
  have hrun : Connect net fuel s
      = ⟨some (.thrown (.generic "Failed to establish connection with any host.")),
          { s with channels := st1.channels, legacyChannels := st1.newLegacyChannels },
          st1.probes⟩ := by
    simp only [Connect, hne, if_false, h1, hc1, if_true]
  rw [hrun]
  exact ⟨rfl, hc1, hl1⟩

/-- C6 (evaluation at the failing inputs): when no attempt ever connects and some
configured range reaches port 65535 (`port + range >= 65535`, e.g. the single
address "h:65535"), `Connect()` never gets to throw the Generic error: for every
fuel it is still inside a port loop. -/
theorem connect_unreachable_never_returns (net : Net) (fuel : Nat) (s : DataRouter)
    (r : TcpRange)
    (hfail : ∀ n host port node, net.connect n host port ≠ .accepted node)
    (hr : r ∈ s.ranges) (hfit : r.port < 65536) (hwrap : 65535 ≤ r.port + r.range) :
    (Connect net fuel s).result = none := by
  have hne : ¬ s.ranges = [] := List.ne_nil_of_mem hr
  obtain ⟨st1, h1⟩ := rangeLoop_never_leaves net fuel r hfail hfit hwrap
    s.ranges ⟨s.channels, [], []⟩ hr
  simp only [Connect, hne, if_false, h1]

/-- C6, instance: the single address "h:65535" with every attempt throwing. -/
theorem connect_unreachable_never_returns_witness :
    (Connect (failingNet (fun _ _ _ => true) (fun _ _ => true)) 100000
      (freshRouter [⟨"h", 65535, 0⟩])).result = none :=
  connect_unreachable_never_returns (failingNet (fun _ _ _ => true) (fun _ _ => true))
    100000 (freshRouter [⟨"h", 65535, 0⟩]) ⟨"h", 65535, 0⟩
    (by intro n host port node; simp [failingNet])
    (by simp [freshRouter]) (by decide) (by decide)

/-- C8 (evaluation at the failing input): for the range "h:65535" (base port
65535, span 0) with every attempt refused, the probes are 65535, 0, 1, ...: ports
outside `[65535, 65535]` are probed and, whatever the fuel, `Connect()` is still
inside the port loop of that range. Away from the end of the port space the
claimed scenario holds: for 10.0.0.1:11110..11112 with a listener on 11111 only
the probes are exactly 11110 and 11111. -/
theorem connect_probes_wrap_at_port_limit :
    (∀ fuel, (Connect (failingNet (fun _ _ _ => false) (fun _ _ => true)) fuel
        (freshRouter [⟨"h", 65535, 0⟩])).result = none)
      ∧ (Connect (failingNet (fun _ _ _ => false) (fun _ _ => true)) 3
          (freshRouter [⟨"h", 65535, 0⟩])).probes = [⟨"h", 65535⟩, ⟨"h", 0⟩, ⟨"h", 1⟩]
      ∧ Connect listenerNet 5 (freshRouter [⟨"10.0.0.1", 11110, 2⟩])
        = ⟨some (.value ()),
            ⟨[⟨"10.0.0.1", 11110, 2⟩], [(7, ⟨"10.0.0.1", 11111, ⟨7, false⟩⟩)], [], []⟩,
            [⟨"10.0.0.1", 11110⟩, ⟨"10.0.0.1", 11111⟩]⟩ := by
  refine ⟨?_, by decide, by decide⟩
  intro fuel
  obtain ⟨st1, h1⟩ := rangeLoop_never_leaves
    (failingNet (fun _ _ _ => false) (fun _ _ => true)) fuel ⟨"h", 65535, 0⟩
    (by intro n host port node; simp [failingNet]) (by decide) (by decide)
    [⟨"h", 65535, 0⟩] ⟨[], [], []⟩ (by simp)
  simp only [Connect, freshRouter] at h1 ⊢
  simp [h1]

/-! ## What the selection and the port loop do away from the two defects -/

/-- Away from the boundary index the locked selection returns a channel of the
union: the `idx`-th entry of `primary` in key order when `idx < |primary|`, and
`legacy[idx - |primary|]` when `idx > |primary|`. -/
theorem getRandomChannelLocked_off_boundary (rand : Nat → Nat × Nat) (s : DataRouter)
    (seed : Nat) (htot : 0 < s.channels.length + s.legacyChannels.length) :
    ((rand seed).1 % (s.channels.length + s.legacyChannels.length) < s.channels.length →
      ∃ e, s.channels[(rand seed).1 % (s.channels.length + s.legacyChannels.length)]?
          = some e
        ∧ GetRandomChannelLocked rand s seed = (.value e.2, s, (rand seed).2))
    ∧ (s.channels.length < (rand seed).1 % (s.channels.length + s.legacyChannels.length) →
      ∃ c, s.legacyChannels[(rand seed).1 % (s.channels.length + s.legacyChannels.length)
            - s.channels.length]? = some c
        ∧ GetRandomChannelLocked rand s seed = (.value c, s, (rand seed).2)) := by
  have hlt : (rand seed).1 % (s.channels.length + s.legacyChannels.length)
      < s.channels.length + s.legacyChannels.length := Nat.mod_lt _ htot
  have hne : ¬ (s.channels.length + s.legacyChannels.length = 0) := by omega
  constructor
  · intro h
    have hng : ¬ (s.channels.length
        < (rand seed).1 % (s.channels.length + s.legacyChannels.length)) := by omega
    refine ⟨s.channels[(rand seed).1 % (s.channels.length + s.legacyChannels.length)],
      List.getElem?_eq_getElem h, ?_⟩
    simp only [GetRandomChannelLocked, hne, if_false, gt_iff_lt, hng,
      List.getElem?_eq_getElem h]
  · intro h
    have hl : (rand seed).1 % (s.channels.length + s.legacyChannels.length)
        - s.channels.length < s.legacyChannels.length := by omega
    refine ⟨s.legacyChannels[(rand seed).1 % (s.channels.length + s.legacyChannels.length)
        - s.channels.length], List.getElem?_eq_getElem hl, ?_⟩
    simp only [GetRandomChannelLocked, hne, if_false, gt_iff_lt, h, if_true,
      List.getElem?_eq_getElem hl]

theorem registerChannel_probes (alive : DataChannel → Bool) (st : ConnectState)
    (channel : DataChannel) : (registerChannel alive st channel).probes = st.probes := by
  unfold registerChannel
  split
  · rfl
  · simp only
    split <;> try split
    all_goals rfl

/-- The probes of one range that ends below port 65535, started at `port`: the
loop finishes having probed `port, port + 1, ...` (`k` ports, none past
`range.port + range.range`), every probe but the last failed, and either the last
probe connected or all `k` failed and the last port of the range was reached. -/
theorem portLoop_probes_below_port_limit (net : Net) (range : TcpRange)
    (hnowrap : range.port + range.range < 65535) :
    ∀ (fuel port : Nat) (st : ConnectState),
      port ≤ range.port + range.range + 1 → range.port + range.range + 1 - port < fuel →
      ∃ st1 k, portLoop net range fuel port st = .finished st1
        ∧ st1.probes = st.probes ++ (List.range' port k).map (fun q => ⟨range.host, q⟩)
        ∧ port + k ≤ range.port + range.range + 1
        ∧ (∀ i, i + 1 < k → ∀ node,
            net.connect (st.probes.length + i) range.host (port + i) ≠ .accepted node)
        ∧ ((∃ j node, k = j + 1
              ∧ net.connect (st.probes.length + j) range.host (port + j) = .accepted node)
          ∨ (port + k = range.port + range.range + 1
              ∧ ∀ i, i < k → ∀ node,
                net.connect (st.probes.length + i) range.host (port + i)
                  ≠ .accepted node)) := by
  intro fuel
  induction fuel with
  | zero => intro port st _ hfuel; omega
  | succ fuel ih =>
    intro port st hport hfuel
    by_cases hle : port ≤ range.port + range.range
    · have hstep : ∀ a, net.connect st.probes.length range.host port = a →
          (∀ node, a ≠ .accepted node) →
          portLoop net range (fuel + 1) port st
            = portLoop net range fuel (port + 1)
                { st with probes := st.probes ++ [⟨range.host, port⟩] } := by
        intro a ha hno
        have hmod : (port + 1) % 65536 = port + 1 := Nat.mod_eq_of_lt (by omega)
        cases a with
        | accepted node => exact absurd rfl (hno node)
        | threw => simp only [portLoop, hle, if_true, ha, hmod]
        | refused => simp only [portLoop, hle, if_true, ha, hmod]
      by_cases hacc : ∃ node, net.connect st.probes.length range.host port = .accepted node
      · obtain ⟨node, hc⟩ := hacc
        refine ⟨registerChannel (net.isConnected st.probes.length)
          { st with probes := st.probes ++ [⟨range.host, port⟩] } ⟨range.host, port, node⟩,
          1, ?_, ?_, by omega, ?_, Or.inl ⟨0, node, rfl, hc⟩⟩
        · simp only [portLoop, hle, if_true, hc]
        · rw [registerChannel_probes]
          simp [List.range']
        · intro i hi; omega
      · have hno : ∀ node, net.connect st.probes.length range.host port ≠ .accepted node :=
          fun node h => hacc ⟨node, h⟩
        obtain ⟨st1, k, h1, h2, h3, h4, h5⟩ := ih (port + 1)
          { st with probes := st.probes ++ [⟨range.host, port⟩] } (by omega) (by omega)
        have hlen : (st.probes ++ [(⟨range.host, port⟩ : EndPoint)]).length
            = st.probes.length + 1 := by simp
        simp only [hlen] at h4 h5
        refine ⟨st1, k + 1, ?_, ?_, by omega, ?_, ?_⟩
        · rw [hstep _ rfl hno]; exact h1
        · rw [h2]
          simp [List.range'_succ]
        · intro i hi node
          cases i with
          | zero => exact hno node
          | succ i =>
            have := h4 i (by omega) node
            have e1 : st.probes.length + (i + 1) = st.probes.length + 1 + i := by omega
            have e2 : port + (i + 1) = port + 1 + i := by omega
            rw [e1, e2]; exact this
        · rcases h5 with ⟨j, node, hk, hc⟩ | ⟨hk, hall⟩
          · refine Or.inl ⟨j + 1, node, by omega, ?_⟩
            have e1 : st.probes.length + (j + 1) = st.probes.length + 1 + j := by omega
            have e2 : port + (j + 1) = port + 1 + j := by omega
            rw [e1, e2]; exact hc
          · refine Or.inr ⟨by omega, ?_⟩
            intro i hi node
            cases i with
            | zero => exact hno node
            | succ i =>
              have := hall i (by omega) node
              have e1 : st.probes.length + (i + 1) = st.probes.length + 1 + i := by omega
              have e2 : port + (i + 1) = port + 1 + i := by omega
              rw [e1, e2]; exact this
    · refine ⟨st, 0, by simp only [portLoop, hle, if_false], by simp, by omega, ?_,
        Or.inr ⟨by omega, ?_⟩⟩
      · intro i hi; omega
      · intro i hi; omega

/-! ## User-provided endpoints -/

/-- The loop answers `true` exactly when some range of the list holds the
endpoint. -/
theorem providedLoop_iff (ranges : List TcpRange) (endPoint : EndPoint) :
    providedLoop ranges endPoint = true
      ↔ ∃ r ∈ ranges, r.host = endPoint.host ∧ r.port ≤ endPoint.port
          ∧ endPoint.port ≤ r.port + r.range := by
  induction ranges with
  | nil => simp [providedLoop]
  | cons it rest ih =>
    by_cases h : it.host = endPoint.host ∧ endPoint.port ≥ it.port
        ∧ endPoint.port ≤ it.port + it.range
    · simp only [providedLoop, h, and_self, if_true, List.mem_cons, true_iff]
      exact ⟨it, Or.inl rfl, h.1, h.2.1, h.2.2⟩
    · simp only [providedLoop, h, if_false, ih, List.mem_cons]
      constructor
      · rintro ⟨r, hr, hrest⟩
        exact ⟨r, Or.inr hr, hrest⟩
      · rintro ⟨r, hr | hr, hrest⟩
        · subst hr
          exact absurd ⟨hrest.1, hrest.2.1, hrest.2.2⟩ h
        · exact ⟨r, hr, hrest⟩

/-- C11: for every router (any list of configured ranges) and every endpoint,
`IsProvidedByUser(endpoint)` returns `true` if and only if some configured range
has the same host and `port <= endpoint.port <= port + range`, the bound being
the exact sum, and it leaves the router, so the range list, as it was. E.g. the
range with base port 65000 and span 1000 holds port 65500 and does not hold
port 464 (the sum 66000 reduced modulo 65536), nor port 65500 of another host. -/
theorem isProvidedByUser_iff (s : DataRouter) (endPoint : EndPoint) :
    ((IsProvidedByUser s endPoint).1 = true
        ↔ ∃ r ∈ s.ranges, r.host = endPoint.host ∧ r.port ≤ endPoint.port
            ∧ endPoint.port ≤ r.port + r.range)
      ∧ (IsProvidedByUser s endPoint).2 = s
      ∧ (IsProvidedByUser (freshRouter [⟨"h", 65000, 1000⟩]) ⟨"h", 65500⟩).1 = true
      ∧ (IsProvidedByUser (freshRouter [⟨"h", 65000, 1000⟩]) ⟨"h", 464⟩).1 = false
      ∧ (IsProvidedByUser (freshRouter [⟨"h", 65000, 1000⟩]) ⟨"g", 65500⟩).1 = false := by
  refine ⟨?_, rfl, by decide, by decide, by decide⟩
  unfold IsProvidedByUser
  exact providedLoop_iff s.ranges endPoint

end Ignite
